import Mathlib

/-!
Verification of the conman concurrency-manager library (Go).

Shallow embedding of `retry.go` and `conman.go`:

* `RetryConfig`, `RetryConfig.validate`, the three backoff presets and
  `WithRetryConfig` are translated directly from `retry.go`.  Go `int` /
  `int64` fields become `Int`; the `float64` backoff factor becomes `ℚ`
  (exact for every value occurring in the claims, which are all exactly
  representable in binary floating point, so the rational model agrees
  with the float computation there).
* `calculateDelay` (conman.go) is modelled over `ℚ`, with Go's
  `int64(float64)` truncation-toward-zero conversion made explicit.
* The dispatch/retry control flow (`executeTask`, `retry`,
  `waitForNextAttempt`) is modelled as pure functions over an
  attempt-indexed task behaviour and a cancellation schedule; the results
  recorded into the manager's `outputs`/`errors` slices are returned as
  lists.
* The buffered-channel admission gate is modelled as a labelled
  transition system whose states carry the per-chain phase and the
  number of occupied channel slots.
-/

namespace Conman

/-- `RetryConfig` from retry.go: attempt budget and delay schedule.
`MaxAttempts` is a Go `int`, `InitialDelay`/`MaxDelay` are `int64`
milliseconds, `BackoffFactor` is a `float64` modelled as `ℚ`. -/
structure RetryConfig where
  MaxAttempts : Int
  InitialDelay : Int
  BackoffFactor : ℚ
  MaxDelay : Int
  Jitter : Bool
  deriving DecidableEq, Repr

/-- `RetryConfig.validate` from retry.go: returns the first failing
check's message, or `none` when the config is accepted.  (The Go
messages interpolate field values via `fmt.Errorf`; the model keeps the
constant part of each message.) -/
def RetryConfig.validate (rc : RetryConfig) : Option String :=
  if rc.MaxAttempts ≤ 0 then
    some "MaxAttempts must be positive"
  else if rc.InitialDelay < 0 then
    some "InitialDelay cannot be negative"
  else if rc.MaxDelay < 0 then
    some "MaxDelay cannot be negative"
  else if rc.MaxDelay > 0 ∧ rc.InitialDelay > rc.MaxDelay then
    some "InitialDelay cannot be greater than MaxDelay"
  else if rc.BackoffFactor < 0 then
    some "BackoffFactor cannot be negative"
  else if rc.BackoffFactor = 0 ∧ rc.InitialDelay > 0 ∧ rc.MaxAttempts > 1 then
    some "BackoffFactor of 0.0 with non-zero InitialDelay will result in zero delays"
  else
    none

/-- The `WithExponentialBackoff` preset from retry.go. -/
def exponentialBackoffConfig : RetryConfig :=
  { MaxAttempts := 5, InitialDelay := 100, BackoffFactor := 2,
    MaxDelay := 5000, Jitter := true }

/-- The `WithLinearBackoff` preset from retry.go. -/
def linearBackoffConfig : RetryConfig :=
  { MaxAttempts := 5, InitialDelay := 200, BackoffFactor := 1,
    MaxDelay := 2000, Jitter := false }

/-- The `WithNoBackoff` preset from retry.go. -/
def noBackoffConfig : RetryConfig :=
  { MaxAttempts := 3, InitialDelay := 0, BackoffFactor := 0,
    MaxDelay := 0, Jitter := false }

/-- Go `error` values as they appear in this library: the context's
cancellation cause (`ctx.Err()`), a plain error, or a `*RetriableError`
wrapping an underlying error together with an optional `RetryConfig`. -/
inductive Err where
  | cancelled
  | plain (msg : String)
  | retriable (u : Err) (config : Option RetryConfig)
  deriving DecidableEq, Repr

/-- `RetriableError.Error()` from retry.go returns the underlying
error's message; `context.Canceled.Error()` is "context canceled". -/
def Err.message : Err → String
  | .cancelled => "context canceled"
  | .plain msg => msg
  | .retriable u _ => u.message

/-- `(e *RetriableError).WithRetryConfig(config)` from retry.go: when
validation fails it returns `(nil, err)` and leaves the receiver's
config untouched; otherwise it attaches the config and returns the
receiver.  The receiver is the retriable error `.retriable u old`. -/
def WithRetryConfig (u : Err) (_old : Option RetryConfig) (config : RetryConfig) :
    Option Err × Option String :=
  match config.validate with
  | some msg => (none, some msg)
  | none => (some (.retriable u (some config)), none)

/-- Go's `int64(f)` conversion of a `float64`: truncation toward zero,
modelled on `ℚ`. -/
def i64trunc (q : ℚ) : Int :=
  if 0 ≤ q then ⌊q⌋ else -⌊-q⌋

/-- The raw exponential delay `float64(config.InitialDelay) *
math.Pow(config.BackoffFactor, float64(attempt))` from
`calculateDelay` (conman.go). -/
def rawDelay (attempt : Nat) (config : RetryConfig) : ℚ :=
  (config.InitialDelay : ℚ) * config.BackoffFactor ^ attempt

/-- `calculateDelay` (conman.go) before the final `time.Duration`
conversion: the raw delay, capped to `MaxDelay` whenever
`int64(delay) > config.MaxDelay`, then scaled by the `rand.Float64()`
draw `jitterDraw ∈ [0,1)` when `Jitter` is set. -/
def calculateDelayQ (attempt : Nat) (config : RetryConfig) (jitterDraw : ℚ) : ℚ :=
  let delay := rawDelay attempt config
  let delay := if i64trunc delay > config.MaxDelay then (config.MaxDelay : ℚ) else delay
  if config.Jitter then delay * jitterDraw else delay

/-- The returned duration of `calculateDelay` in milliseconds:
`time.Duration(delay) * time.Millisecond` truncates toward zero. -/
def calculateDelayMs (attempt : Nat) (config : RetryConfig) (jitterDraw : ℚ) : Int :=
  i64trunc (calculateDelayQ attempt config jitterDraw)

/-! ## The dispatch/retry engine (`executeTask`, `retry`, conman.go)

A task's behaviour is the sequence of outcomes of its successive
`Execute` calls (a Go task may carry mutable state such as a run
counter, so the outcome is indexed by the 0-based call number).  The
ambient context is a cancellation schedule: `cancel a = true` means the
context is done when `waitForNextAttempt` runs for retry-loop attempt
index `a`, in which case the `select` takes the `ctx.Done()` branch and
returns `ctx.Err()`.  The entries a chain appends to the manager's
`outputs` and `errors` slices, and its total number of `Execute` calls,
are collected in a `ChainResult`. -/

/-- Outcome of the i-th `Execute` call of a task (0-based). -/
abbrev ExecBehavior (T : Type) := Nat → Except Err T

/-- Whether the context is done during the wait preceding retry-loop
attempt `a`. -/
abbrev CancelSchedule := Nat → Bool

/-- What one task execution chain contributed: entries appended to the
manager's `outputs` and `errors` slices, and the number of `Execute`
calls made. -/
structure ChainResult (T : Type) where
  outs : List T
  errs : List Err
  execs : Nat
  deriving DecidableEq, Repr

/-- The `for attempts := range config.MaxAttempts` loop of `retry`
(conman.go).  `a` is the current loop index `attempts`, `r` the number
of iterations left, `lastErr` the value of the loop variable `err`
before this iteration (`nil` on entry to the loop).  Each iteration
first runs `waitForNextAttempt` — which returns `ctx.Err()` when the
cancellation schedule fires, breaking the loop — then re-runs the task:
the i-th loop iteration performs `Execute` call number `a + 1` (call 0
was the initial attempt in `executeTask`).  After the loop, the final
`err` is appended to `errors` when non-nil. -/
def retryLoop (exec : ExecBehavior T) (cancel : CancelSchedule) :
    Nat → Nat → Option Err → ChainResult T
  | _, 0, lastErr => ⟨[], lastErr.toList, 0⟩
  | a, r + 1, _ =>
    if cancel a then
      ⟨[], [Err.cancelled], 0⟩
    else
      match exec (a + 1) with
      | .ok v => ⟨[v], [], 1⟩
      | .error e =>
        let rest := retryLoop exec cancel (a + 1) r (some e)
        ⟨rest.outs, rest.errs, rest.execs + 1⟩

/-- `retry` (conman.go): returns immediately when `config == nil`,
otherwise runs the attempt loop.  (Go's `range` over a non-positive
`int` performs no iterations, hence `MaxAttempts.toNat`.) -/
def retry (exec : ExecBehavior T) (cancel : CancelSchedule)
    (config : Option RetryConfig) : ChainResult T :=
  match config with
  | none => ⟨[], [], 0⟩
  | some cfg => retryLoop exec cancel 0 cfg.MaxAttempts.toNat none

/-- `executeTask` (conman.go): run the task once; on success append the
output; when the error is a `*RetriableError`, hand its config to
`retry`; otherwise append the error itself. -/
def executeTask (exec : ExecBehavior T) (cancel : CancelSchedule) : ChainResult T :=
  match exec 0 with
  | .ok v => ⟨[v], [], 1⟩
  | .error e =>
    match e with
    | .retriable _ cfg =>
      let r := retry exec cancel cfg
      ⟨r.outs, r.errs, r.execs + 1⟩
    | _ => ⟨[], [e], 1⟩

/-! ## The admission gate (`Run`, `reserveOne`, `releaseOne`, conman.go)

The concurrency limiter is the buffered channel `buffer` of capacity
`concurrencyLimit`: `reserveOne` sends (enabled only while fewer than
`L` items are buffered), `releaseOne` receives.  `Run` reserves one
slot, then spawns a goroutine that runs the whole chain
(`executeTask`, including every retry) and releases the slot once, via
`defer`, when the chain reaches its terminal outcome.  We model the
manager as a transition system: each spawned chain is in one of three
phases, and `held` counts the buffered (occupied) slots. -/

/-- Phase of one spawned execution chain: currently inside an `Execute`
call, waiting out an inter-attempt delay, or terminated (its deferred
`releaseOne` has run). -/
inductive Phase where
  | running
  | retryWaiting
  | finished
  deriving DecidableEq, Repr

/-- A chain counts against the concurrency budget while it is running
or waiting between attempts. -/
def Phase.live : Phase → Bool
  | .running => true
  | .retryWaiting => true
  | .finished => false

/-- Number of live (running or retry-waiting) chains. -/
def liveCount (chains : List Phase) : Nat :=
  (chains.filter Phase.live).length

/-- Manager state: the phase of every chain ever admitted, and the
number of occupied buffer slots. -/
structure Sys where
  chains : List Phase
  held : Nat
  deriving DecidableEq, Repr

/-- Freshly constructed manager: no chains, empty buffer. -/
def Sys.init : Sys := ⟨[], 0⟩

/-- Transitions of the manager under concurrency limit `L`.

* `reserve`: `Run`'s default branch — `reserveOne` completes (the
  buffered send is enabled only while `held < L`) and the goroutine for
  a new chain is spawned.
* `startWait`: a running chain's attempt failed retriably and it enters
  `waitForNextAttempt`; the slot is kept.
* `wake`: the wait elapses and the chain re-runs `Execute`; no slot is
  re-acquired for the retry.
* `finishRun` / `finishWait`: the chain reaches its terminal outcome
  (success, terminal error, exhaustion — or cancellation during a
  wait) and its single deferred `releaseOne` receives from the buffer. -/
inductive Step (L : Nat) : Sys → Sys → Prop
  | reserve (s : Sys) (h : s.held < L) :
      Step L s ⟨Phase.running :: s.chains, s.held + 1⟩
  | startWait (s : Sys) (pre post : List Phase)
      (h : s.chains = pre ++ Phase.running :: post) :
      Step L s ⟨pre ++ Phase.retryWaiting :: post, s.held⟩
  | wake (s : Sys) (pre post : List Phase)
      (h : s.chains = pre ++ Phase.retryWaiting :: post) :
      Step L s ⟨pre ++ Phase.running :: post, s.held⟩
  | finishRun (s : Sys) (pre post : List Phase)
      (h : s.chains = pre ++ Phase.running :: post) (hh : 0 < s.held) :
      Step L s ⟨pre ++ Phase.finished :: post, s.held - 1⟩
  | finishWait (s : Sys) (pre post : List Phase)
      (h : s.chains = pre ++ Phase.retryWaiting :: post) (hh : 0 < s.held) :
      Step L s ⟨pre ++ Phase.finished :: post, s.held - 1⟩

/-- States reachable from a freshly constructed manager. -/
def Reachable (L : Nat) (s : Sys) : Prop :=
  Relation.ReflTransGen (Step L) Sys.init s

/-- The `select` at the top of `Run` (conman.go): when the context is
already done, return `ctx.Err()` without touching the buffer or
spawning anything; otherwise take the default branch, reserve one slot
and spawn the chain's goroutine, then return `nil`.  (When the buffer
is full the default branch blocks inside `reserveOne` until a slot is
released; the function models the state at the moment `Run` returns.) -/
def runDispatch (ctxDone : Bool) (s : Sys) : Sys × Option Err :=
  if ctxDone then
    (s, some Err.cancelled)
  else
    (⟨Phase.running :: s.chains, s.held + 1⟩, none)

/-! ## The result aggregator (`Outputs`, `Errors`, conman.go)

`outputs` and `errors` are Go slices only ever mutated by
`append(·, v)` under the manager's mutex.  `Outputs()`/`Errors()`
return, under the same mutex, a copy of the slice header — backing
array pointer plus current length.  A later in-place `append` writes
only at indices ≥ that length, so the model keeps the backing store as
a list extended at the end and a snapshot as the length at call time;
reading the returned slice after further records sees
`store.take len`. -/

/-- One `append` under the mutex (`recordOutput` / `recordError`). -/
def record (store : List α) (v : α) : List α := store ++ [v]

/-- Reading the slice returned by `Outputs()`/`Errors()` once the
backing store has advanced to `store'`: the returned header has length
`n`, so its visible content is the first `n` cells. -/
def snapRead (store' : List α) (n : Nat) : List α := store'.take n

/-! ## Supporting lemmas -/

/-- Any sequence of record operations only extends the store. -/
lemma foldl_record_eq_append (store later : List α) :
    List.foldl record store later = store ++ later := by
  induction later generalizing store with
  | nil => simp
  | cons v rest ih => simp [record, ih]

end Conman

namespace Conman

/-- The acceptance condition of `RetryConfig.validate`, written as one
predicate. -/
def ValidSpec (rc : RetryConfig) : Prop :=
  0 < rc.MaxAttempts ∧ 0 ≤ rc.InitialDelay ∧ 0 ≤ rc.MaxDelay ∧
    0 ≤ rc.BackoffFactor ∧ (0 < rc.MaxDelay → rc.InitialDelay ≤ rc.MaxDelay) ∧
    ¬(rc.BackoffFactor = 0 ∧ 0 < rc.InitialDelay ∧ 1 < rc.MaxAttempts)

lemma validate_none_iff (rc : RetryConfig) :
    rc.validate = none ↔ ValidSpec rc := by
  unfold RetryConfig.validate ValidSpec
  split_ifs with h1 h2 h3 h4 h5 h6
  · simp only [reduceCtorEq, false_iff]
    rintro ⟨hA, -⟩; omega
  · simp only [reduceCtorEq, false_iff]
    rintro ⟨-, hI, -⟩; omega
  · simp only [reduceCtorEq, false_iff]
    rintro ⟨-, -, hM, -⟩; omega
  · simp only [reduceCtorEq, false_iff]
    rintro ⟨-, -, -, -, hIM, -⟩
    exact absurd (hIM h4.1) (by omega)
  · simp only [reduceCtorEq, false_iff]
    rintro ⟨-, -, -, hB, -⟩
    exact absurd h5 (not_lt.mpr hB)
  · simp only [reduceCtorEq, false_iff]
    rintro ⟨-, -, -, -, -, hDeg⟩
    exact hDeg ⟨h6.1, by omega, by omega⟩
  · simp only [true_iff]
    refine ⟨by omega, by omega, by omega, le_of_not_lt h5, fun hM => ?_, fun hDeg => ?_⟩
    · by_contra hIM
      exact h4 ⟨hM, by omega⟩
    · exact h6 ⟨hDeg.1, by omega, by omega⟩

end Conman

namespace Conman

/-- C5: the sequences returned by `Outputs()`/`Errors()` are consistent
snapshots: any record operations performed after the call only append
past the snapshot's length, so reading the returned slice still yields
the content present at call time; and with no further writers (after
drain) every call returns the same content. -/
theorem outputs_errors_snapshot_consistent (α : Type) (store later : List α) :
    snapRead (List.foldl record store later) store.length = store ∧
      snapRead store store.length = store := by
  constructor
  · rw [snapRead, foldl_record_eq_append, List.take_left]
  · rw [snapRead, List.take_length]

/-- C8: `RetryConfig` validation accepts exactly the configs satisfying
the conjunction of the documented constraints, and `WithRetryConfig`
with an invalid config returns a validation error together with a nil
`RetriableError` (the config is not attached); with a valid config it
attaches exactly that config. -/
theorem validate_iff_and_withRetryConfig (rc : RetryConfig) (u : Err)
    (old : Option RetryConfig) :
    (rc.validate = none ↔
      (0 < rc.MaxAttempts ∧ 0 ≤ rc.InitialDelay ∧ 0 ≤ rc.MaxDelay ∧
        0 ≤ rc.BackoffFactor ∧ (0 < rc.MaxDelay → rc.InitialDelay ≤ rc.MaxDelay) ∧
        ¬(rc.BackoffFactor = 0 ∧ 0 < rc.InitialDelay ∧ 1 < rc.MaxAttempts))) ∧
    (rc.validate ≠ none →
      (WithRetryConfig u old rc).1 = none ∧ (WithRetryConfig u old rc).2 ≠ none) ∧
    (rc.validate = none →
      (WithRetryConfig u old rc).1 = some (.retriable u (some rc))) := by
  refine ⟨validate_none_iff rc, fun hbad => ?_, fun hok => ?_⟩
  · unfold WithRetryConfig
    cases h : rc.validate with
    | none => exact absurd h hbad
    | some msg => exact ⟨rfl, by simp⟩
  · unfold WithRetryConfig
    rw [hok]

/-- Witness for C8 at the exponential preset and at a config violating
the degenerate-combination rule. -/
theorem validate_iff_and_withRetryConfig_holds :
    exponentialBackoffConfig.validate = none ∧
      (WithRetryConfig (.plain "x") none
        ⟨2, 100, 0, 0, false⟩).1 = none := by
  refine ⟨?_, ?_⟩
  · exact (validate_iff_and_withRetryConfig exponentialBackoffConfig
      (.plain "x") none).1.mpr (by unfold exponentialBackoffConfig; norm_num)
  · exact ((validate_iff_and_withRetryConfig ⟨2, 100, 0, 0, false⟩
      (.plain "x") none).2.1 (by unfold RetryConfig.validate; norm_num; simp)).1

/-- A config that passes validation with `MaxDelay = 0` and a nonzero
computed delay: `{MaxAttempts: 2, InitialDelay: 100, BackoffFactor: 2,
MaxDelay: 0, Jitter: false}`.  All its values are exactly representable
in `float64`, and `100.0 * pow(2.0, 0) = 100.0` is exact, so the
rational model agrees with the Go computation on it. -/
def cfgZeroMaxDelay : RetryConfig :=
  { MaxAttempts := 2, InitialDelay := 100, BackoffFactor := 2,
    MaxDelay := 0, Jitter := false }

/-- C4 counterexample: for the validated config `cfgZeroMaxDelay`
(`MaxDelay = 0`), the claim predicts that no cap is applied and the
computed value `initialDelay * backoffFactor^0 = 100` is used as-is,
but `calculateDelay` compares `int64(delay) > MaxDelay`
unconditionally, so `100 > 0` triggers the cap and the delay collapses
to `MaxDelay = 0`. -/
theorem calculateDelay_zero_maxDelay_counterexample :
    cfgZeroMaxDelay.validate = none ∧
      cfgZeroMaxDelay.MaxDelay = 0 ∧
      rawDelay 0 cfgZeroMaxDelay = 100 ∧
      calculateDelayQ 0 cfgZeroMaxDelay 0 = 0 ∧
      calculateDelayQ 0 cfgZeroMaxDelay 0 ≠ rawDelay 0 cfgZeroMaxDelay := by
  refine ⟨by simp [cfgZeroMaxDelay, RetryConfig.validate], rfl, ?_, ?_, ?_⟩
  · unfold rawDelay cfgZeroMaxDelay; norm_num
  · unfold calculateDelayQ rawDelay i64trunc cfgZeroMaxDelay; norm_num
  · unfold calculateDelayQ rawDelay i64trunc cfgZeroMaxDelay; norm_num

/-- C4 amended: for every validated config and attempt index, the cap
comparison `int64(delay) > maxDelay` is applied unconditionally — so
with `maxDelay = 0` every computed delay of at least 1 is clamped to
zero — and when jitter is enabled the capped delay is scaled by the
uniformly drawn factor. -/
theorem calculateDelay_cap_unconditional (cfg : RetryConfig) (a : Nat) (draw : ℚ)
    (hv : cfg.validate = none) :
    (cfg.MaxDelay = 0 → 1 ≤ i64trunc (rawDelay a cfg) →
      calculateDelayQ a cfg draw = 0) ∧
    (cfg.Jitter = false → calculateDelayQ a cfg draw =
      if i64trunc (rawDelay a cfg) > cfg.MaxDelay then (cfg.MaxDelay : ℚ)
      else rawDelay a cfg) ∧
    (cfg.Jitter = true → calculateDelayQ a cfg draw =
      (if i64trunc (rawDelay a cfg) > cfg.MaxDelay then (cfg.MaxDelay : ℚ)
        else rawDelay a cfg) * draw) := by
  clear hv
  refine ⟨fun hM h1 => ?_, fun hJ => ?_, fun hJ => ?_⟩
  · unfold calculateDelayQ
    rw [hM]
    have hgt : i64trunc (rawDelay a cfg) > (0 : Int) := by omega
    simp only [hgt, if_true, Int.cast_zero, zero_mul]
    cases cfg.Jitter <;> simp
  · unfold calculateDelayQ
    rw [hJ]
    simp
  · unfold calculateDelayQ
    rw [hJ]
    simp only [if_pos rfl]
    split_ifs <;> ring

/-- Witness for C4's amended theorem at the counterexample config. -/
theorem calculateDelay_cap_unconditional_holds :
    calculateDelayQ 0 cfgZeroMaxDelay 0 = 0 := by
  refine (calculateDelay_cap_unconditional cfgZeroMaxDelay 0 0 ?_).1 rfl ?_
  · simp [cfgZeroMaxDelay, RetryConfig.validate]
  · unfold rawDelay i64trunc cfgZeroMaxDelay; norm_num

/-! ## Lemmas about the retry loop -/

/-- Every run of the retry loop produces at most one recorded entry in
total across outputs and errors. -/
lemma retryLoop_sum_le (exec : ExecBehavior T) (cancel : CancelSchedule) :
    ∀ (r a : Nat) (lastErr : Option Err),
      (retryLoop exec cancel a r lastErr).outs.length +
        (retryLoop exec cancel a r lastErr).errs.length ≤ 1 := by
  intro r
  induction r with
  | zero =>
    intro a lastErr
    cases lastErr <;> simp [retryLoop]
  | succ r ih =>
    intro a lastErr
    by_cases hc : cancel a
    · simp [retryLoop, hc]
    · cases hx : exec (a + 1) with
      | ok v => simp [retryLoop, hc, hx]
      | error e =>
        have := ih (a + 1) (some e)
        simpa [retryLoop, hc, hx] using this

/-- When no wait is cancelled and every re-run fails, the loop runs all
its iterations and records exactly the error of the last `Execute`
call. -/
lemma retryLoop_all_fail (exec : ExecBehavior T) (cancel : CancelSchedule)
    (f : Nat → Err) :
    ∀ (r a : Nat) (lastErr : Option Err), 0 < r →
      (∀ j, a ≤ j → j < a + r → cancel j = false) →
      (∀ i, a + 1 ≤ i → i ≤ a + r → exec i = .error (f i)) →
      retryLoop exec cancel a r lastErr = ⟨[], [f (a + r)], r⟩ := by
  intro r
  induction r with
  | zero => intro a lastErr h; omega
  | succ r ih =>
    intro a lastErr _ hnc hfail
    have hca : cancel a = false := hnc a (le_refl a) (by omega)
    have hxa : exec (a + 1) = .error (f (a + 1)) :=
      hfail (a + 1) (le_refl _) (by omega)
    rcases Nat.eq_zero_or_pos r with hr0 | hrpos
    · subst hr0
      simp [retryLoop, hca, hxa]
    · have hrest := ih (a + 1) (some (f (a + 1))) hrpos
        (fun j h1 h2 => hnc j (by omega) (by omega))
        (fun i h1 h2 => hfail i (by omega) (by omega))
      have harith : a + 1 + r = a + (r + 1) := by omega
      simp [retryLoop, hca, hxa, hrest, harith]

/-- When the cancellation signal fires during the wait of loop
iteration `k` (all earlier waits pass and all earlier re-runs fail),
the loop aborts there: it records exactly the cancellation cause and
performs no `Execute` call at iteration `k`. -/
lemma retryLoop_cancel_at (exec : ExecBehavior T) (cancel : CancelSchedule) :
    ∀ (k a r : Nat) (lastErr : Option Err), k < r →
      (∀ j, a ≤ j → j < a + k → cancel j = false) →
      cancel (a + k) = true →
      (∀ i, a + 1 ≤ i → i ≤ a + k → ∃ e, exec i = .error e) →
      retryLoop exec cancel a r lastErr = ⟨[], [Err.cancelled], k⟩ := by
  intro k
  induction k with
  | zero =>
    intro a r lastErr hkr _ hfire _
    obtain ⟨r', rfl⟩ : ∃ r', r = r' + 1 := ⟨r - 1, by omega⟩
    have hca : cancel a = true := by simpa using hfire
    simp [retryLoop, hca]
  | succ k ih =>
    intro a r lastErr hkr hbefore hfire hfail
    obtain ⟨r', rfl⟩ : ∃ r', r = r' + 1 := ⟨r - 1, by omega⟩
    have hca : cancel a = false := hbefore a (le_refl a) (by omega)
    obtain ⟨e, hxa⟩ := hfail (a + 1) (le_refl _) (by omega)
    have hrest := ih (a + 1) r' (some e) (by omega)
      (fun j h1 h2 => hbefore j (by omega) (by omega))
      (by have : a + 1 + k = a + (k + 1) := by omega
          rw [this]; exact hfire)
      (fun i h1 h2 => hfail i (by omega) (by omega))
    simp [retryLoop, hca, hxa, hrest]

/-- When all waits up to iteration `k` pass, the re-runs before `k`
fail and the re-run at iteration `k` succeeds, the loop stops there
and records exactly that one output and no error. -/
lemma retryLoop_success_at (exec : ExecBehavior T) (cancel : CancelSchedule) (v : T) :
    ∀ (k a r : Nat) (lastErr : Option Err), k < r →
      (∀ j, a ≤ j → j ≤ a + k → cancel j = false) →
      (∀ i, a + 1 ≤ i → i ≤ a + k → ∃ e, exec i = .error e) →
      exec (a + k + 1) = .ok v →
      retryLoop exec cancel a r lastErr = ⟨[v], [], k + 1⟩ := by
  intro k
  induction k with
  | zero =>
    intro a r lastErr hkr hnc _ hok
    obtain ⟨r', rfl⟩ : ∃ r', r = r' + 1 := ⟨r - 1, by omega⟩
    have hca : cancel a = false := hnc a (le_refl a) (by omega)
    have hxa : exec (a + 1) = .ok v := by simpa using hok
    simp [retryLoop, hca, hxa]
  | succ k ih =>
    intro a r lastErr hkr hnc hfail hok
    obtain ⟨r', rfl⟩ : ∃ r', r = r' + 1 := ⟨r - 1, by omega⟩
    have hca : cancel a = false := hnc a (le_refl a) (by omega)
    obtain ⟨e, hxa⟩ := hfail (a + 1) (le_refl _) (by omega)
    have hrest := ih (a + 1) r' (some e) (by omega)
      (fun j h1 h2 => hnc j (by omega) (by omega))
      (fun i h1 h2 => hfail i (by omega) (by omega))
      (by have harith : a + 1 + k + 1 = a + (k + 1) + 1 := by omega
          rw [harith]; exact hok)
    simp [retryLoop, hca, hxa, hrest]

/-! ## Concrete task behaviours used as witnesses and counterexamples -/

/-- A task that always fails with a `RetriableError` carrying the
"none" backoff preset (like `faultydoubler` with `WithNoBackoff`). -/
def alwaysNoBackoffFail : ExecBehavior Nat :=
  fun _ => .error (.retriable (.plain "Try again") (some noBackoffConfig))

/-- A task that always fails with a `RetriableError` that has no
attached `RetryConfig`. -/
def retriableNoConfigFail : ExecBehavior Nat :=
  fun _ => .error (.retriable (.plain "boom") none)

/-- A task that always fails with a `RetriableError` carrying the
linear backoff preset. -/
def alwaysLinearFail : ExecBehavior Nat :=
  fun _ => .error (.retriable (.plain "x") (some linearBackoffConfig))

/-- A task that fails with a `RetriableError` carrying the exponential
preset on its first two `Execute` calls and then succeeds (like
`flakydoubler` in the tests). -/
def flakyThenSuccess : ExecBehavior Nat :=
  fun i =>
    if i < 2 then
      .error (.retriable (.plain "Try again") (some exponentialBackoffConfig))
    else
      .ok 42

/-- A context that is never cancelled. -/
def noCancel : CancelSchedule := fun _ => false

/-- A context whose cancellation fires during the wait of retry-loop
iteration 1. -/
def cancelAtOne : CancelSchedule := fun a => decide (a = 1)

/-- C2 counterexample: a task that always returns a `RetriableError`
under the "none" policy records exactly one terminal error and no
output, but its `Execute` is invoked 4 times, not the claimed 3: the
retry loop runs `maxAttempts = 3` full retry attempts after the
initial one. -/
theorem noBackoff_total_attempts_counterexample :
    (executeTask alwaysNoBackoffFail noCancel).errs.length = 1 ∧
      (executeTask alwaysNoBackoffFail noCancel).outs = [] ∧
      (executeTask alwaysNoBackoffFail noCancel).execs = 4 ∧
      ¬(executeTask alwaysNoBackoffFail noCancel).execs = 3 := by
  refine ⟨rfl, rfl, rfl, by decide⟩

/-- C2 amended: a task that always returns a `RetriableError` carrying
the "none" policy (`maxAttempts = 3`, zero delay) contributes exactly
one terminal error (the last `Execute`'s error value) and no output,
and `Execute` is invoked exactly 4 times in total: 1 initial attempt
plus 3 retries, because `maxAttempts` counts the retry attempts made
after the initial failure. -/
theorem noBackoff_one_error_four_attempts :
    executeTask alwaysNoBackoffFail noCancel =
      ⟨[], [.retriable (.plain "Try again") (some noBackoffConfig)], 4⟩ := rfl

/-- C3 counterexample: a task whose `Execute` returns a
`RetriableError` with no attached `RetryConfig` terminates without
retry, but no entry at all is appended to the errors sequence —
`retry` returns before recording anything — contradicting the claimed
"exactly one error entry". -/
theorem retriable_no_config_counterexample :
    (executeTask retriableNoConfigFail noCancel).errs = [] ∧
      ¬(executeTask retriableNoConfigFail noCancel).errs.length = 1 ∧
      (executeTask retriableNoConfigFail noCancel).outs = [] := by
  refine ⟨rfl, by decide, rfl⟩

/-- C3 amended: for every task whose `Execute` returns a
`RetriableError` with no attached `RetryConfig`, the execution
terminates without any retry (`Execute` is called exactly once) and
records nothing: neither an error entry nor an output entry — the
underlying error is silently dropped. -/
theorem retriable_no_config_drops_error (T : Type) (exec : ExecBehavior T)
    (cancel : CancelSchedule) (u : Err)
    (h0 : exec 0 = .error (.retriable u none)) :
    executeTask exec cancel = ⟨[], [], 1⟩ := by
  simp [executeTask, retry, h0]

/-- Witness for C3's amended theorem. -/
theorem retriable_no_config_drops_error_holds :
    executeTask retriableNoConfigFail noCancel = ⟨[], [], 1⟩ :=
  retriable_no_config_drops_error Nat retriableNoConfigFail noCancel
    (.plain "boom") rfl

/-- C6: if the cancellation signal fires while a retry chain is
waiting out the delay before retry-loop iteration `k` (earlier waits
passed and earlier re-runs failed), the chain aborts immediately: the
cancellation cause is recorded as its single terminal error, no output
is recorded, and `Execute` has been called only `k + 1` times — none
after the interrupted wait. -/
theorem cancellation_during_wait_aborts (T : Type) (exec : ExecBehavior T)
    (cancel : CancelSchedule) (u : Err) (cfg : RetryConfig) (k : Nat)
    (h0 : exec 0 = .error (.retriable u (some cfg)))
    (hk : k < cfg.MaxAttempts.toNat)
    (hbefore : ∀ j, j < k → cancel j = false)
    (hfire : cancel k = true)
    (hfail : ∀ i, 1 ≤ i → i ≤ k → ∃ e, exec i = .error e) :
    executeTask exec cancel = ⟨[], [Err.cancelled], k + 1⟩ := by
  have hloop := retryLoop_cancel_at exec cancel k 0 cfg.MaxAttempts.toNat none hk
    (fun j _ h2 => hbefore j (by omega))
    (by simpa using hfire)
    (fun i h1 h2 => hfail i h1 (by omega))
  simp [executeTask, retry, h0, hloop]

/-- Witness for C6: always-failing task with the linear preset,
cancellation firing during the second inter-attempt wait. -/
theorem cancellation_during_wait_aborts_holds :
    executeTask alwaysLinearFail cancelAtOne = ⟨[], [Err.cancelled], 2⟩ :=
  cancellation_during_wait_aborts Nat alwaysLinearFail cancelAtOne
    (.plain "x") linearBackoffConfig 1 rfl (by decide)
    (fun j hj => by
      have hj0 : j = 0 := by omega
      subst hj0; rfl)
    rfl
    (fun i _ _ => ⟨.retriable (.plain "x") (some linearBackoffConfig), rfl⟩)

/-- C9: every single task execution chain appends at most one entry in
total across the outputs and errors sequences, whatever the task's
behaviour and the cancellation schedule — so no chain ever records
both an output and an error, or more than one of either — and a chain
that reaches success records exactly one output and no error
regardless of how many earlier attempts failed: both when the initial
attempt succeeds and when retry iteration `k` succeeds after the
initial attempt and the `k` earlier re-runs all failed. -/
theorem chain_records_at_most_one (T : Type) (exec : ExecBehavior T)
    (cancel : CancelSchedule) :
    ((executeTask exec cancel).outs.length +
      (executeTask exec cancel).errs.length ≤ 1) ∧
    (∀ v : T, exec 0 = .ok v → executeTask exec cancel = ⟨[v], [], 1⟩) ∧
    (∀ (v : T) (u : Err) (cfg : RetryConfig) (k : Nat),
      exec 0 = .error (.retriable u (some cfg)) →
      k < cfg.MaxAttempts.toNat →
      (∀ j, j ≤ k → cancel j = false) →
      (∀ i, 1 ≤ i → i ≤ k → ∃ e, exec i = .error e) →
      exec (k + 1) = .ok v →
      executeTask exec cancel = ⟨[v], [], k + 2⟩) := by
  refine ⟨?_, fun v h0 => by simp [executeTask, h0],
    fun v u cfg k h0 hk hnc hfail hok => ?_⟩
  · unfold executeTask
    cases hx : exec 0 with
    | ok v => simp
    | error e =>
      cases e with
      | cancelled => simp
      | plain msg => simp
      | retriable u cfg =>
        cases cfg with
        | none => simp [retry]
        | some c =>
          simpa [retry] using
            retryLoop_sum_le exec cancel c.MaxAttempts.toNat 0 none
  · have hloop := retryLoop_success_at exec cancel v k 0 cfg.MaxAttempts.toNat none hk
      (fun j _ h2 => hnc j (by omega))
      (fun i h1 h2 => hfail i h1 (by omega))
      (by simpa using hok)
    simp [executeTask, retry, h0, hloop]

/-- Witness for C9: a task that fails retriably twice and succeeds on
its third `Execute` call records exactly one output, no error, and
made 3 calls in total. -/
theorem chain_records_at_most_one_holds :
    executeTask flakyThenSuccess noCancel = ⟨[42], [], 3⟩ :=
  (chain_records_at_most_one Nat flakyThenSuccess noCancel).2.2 42
    (.plain "Try again") exponentialBackoffConfig 1 rfl (by decide)
    (fun j _ => rfl)
    (fun i h1 h2 =>
      ⟨.retriable (.plain "Try again") (some exponentialBackoffConfig), by
        have hi : i = 1 := by omega
        subst hi; rfl⟩)
    rfl

/-- C10: when a retry chain exhausts its attempt budget, the entry
appended to the errors sequence is the exact error value returned by
the last `Execute` call, without unwrapping — and a `RetriableError`
wrapper's `Error()` message equals its underlying error's message. -/
theorem exhaustion_records_last_error (T : Type) (exec : ExecBehavior T)
    (cancel : CancelSchedule) (u : Err) (cfg : RetryConfig) (f : Nat → Err)
    (h0 : exec 0 = .error (.retriable u (some cfg)))
    (hpos : 0 < cfg.MaxAttempts.toNat)
    (hnc : ∀ a, cancel a = false)
    (hfail : ∀ i, 1 ≤ i → i ≤ cfg.MaxAttempts.toNat → exec i = .error (f i)) :
    (executeTask exec cancel).errs = [f cfg.MaxAttempts.toNat] ∧
      (executeTask exec cancel).outs = [] ∧
      (∀ (u2 : Err) (c2 : Option RetryConfig),
        (Err.retriable u2 c2).message = u2.message) := by
  have hloop := retryLoop_all_fail exec cancel f cfg.MaxAttempts.toNat 0 none hpos
    (fun j _ _ => hnc j)
    (fun i h1 h2 => hfail i (by omega) (by omega))
  refine ⟨?_, ?_, fun u2 c2 => rfl⟩ <;> simp [executeTask, retry, h0, hloop]

/-- Witness for C10: the always-failing "none"-policy task records
exactly the final `*RetriableError` wrapper, whose message is the
underlying message. -/
theorem exhaustion_records_last_error_holds :
    (executeTask alwaysNoBackoffFail noCancel).errs =
        [Err.retriable (.plain "Try again") (some noBackoffConfig)] ∧
      (Err.retriable (.plain "Try again") (some noBackoffConfig)).message =
        (Err.plain "Try again").message := by
  have h := exhaustion_records_last_error Nat alwaysNoBackoffFail noCancel
    (.plain "Try again") noBackoffConfig
    (fun _ => .retriable (.plain "Try again") (some noBackoffConfig))
    rfl (by decide) (fun a => rfl) (fun i _ _ => rfl)
  exact ⟨h.1, h.2.2 (.plain "Try again") (some noBackoffConfig)⟩

/-! ## Lemmas about the admission gate -/

lemma liveCount_append (xs ys : List Phase) :
    liveCount (xs ++ ys) = liveCount xs + liveCount ys := by
  simp [liveCount, List.filter_append]

lemma liveCount_cons (p : Phase) (l : List Phase) :
    liveCount (p :: l) = (if p.live then 1 else 0) + liveCount l := by
  by_cases h : p.live <;> simp [liveCount, List.filter_cons, h] <;> omega

/-- Each transition preserves the gate invariant: the number of
occupied buffer slots equals the number of live chains (one slot per
chain for its whole lifetime), and never exceeds the capacity `L`. -/
lemma step_preserves_inv {L : Nat} {s s' : Sys} (hs : Step L s s')
    (h1 : s.held = liveCount s.chains) (h2 : s.held ≤ L) :
    s'.held = liveCount s'.chains ∧ s'.held ≤ L := by
  cases hs with
  | reserve h =>
    have e1 : liveCount (Phase.running :: s.chains) = 1 + liveCount s.chains := by
      simp [liveCount_cons, Phase.live]
    refine ⟨?_, ?_⟩
    · show s.held + 1 = liveCount (Phase.running :: s.chains)
      rw [e1]; omega
    · show s.held + 1 ≤ L
      omega
  | startWait pre post h =>
    refine ⟨?_, h2⟩
    show s.held = liveCount (pre ++ Phase.retryWaiting :: post)
    rw [h1, h]
    simp [liveCount_append, liveCount_cons, Phase.live]
  | wake pre post h =>
    refine ⟨?_, h2⟩
    show s.held = liveCount (pre ++ Phase.running :: post)
    rw [h1, h]
    simp [liveCount_append, liveCount_cons, Phase.live]
  | finishRun pre post h hh =>
    rw [h] at h1
    have e1 : liveCount (pre ++ Phase.running :: post) =
        liveCount pre + (1 + liveCount post) := by
      simp [liveCount_append, liveCount_cons, Phase.live]
    have e2 : liveCount (pre ++ Phase.finished :: post) =
        liveCount pre + liveCount post := by
      simp [liveCount_append, liveCount_cons, Phase.live]
    rw [e1] at h1
    refine ⟨?_, ?_⟩
    · show s.held - 1 = liveCount (pre ++ Phase.finished :: post)
      rw [e2]; omega
    · show s.held - 1 ≤ L
      omega
  | finishWait pre post h hh =>
    rw [h] at h1
    have e1 : liveCount (pre ++ Phase.retryWaiting :: post) =
        liveCount pre + (1 + liveCount post) := by
      simp [liveCount_append, liveCount_cons, Phase.live]
    have e2 : liveCount (pre ++ Phase.finished :: post) =
        liveCount pre + liveCount post := by
      simp [liveCount_append, liveCount_cons, Phase.live]
    rw [e1] at h1
    refine ⟨?_, ?_⟩
    · show s.held - 1 = liveCount (pre ++ Phase.finished :: post)
      rw [e2]; omega
    · show s.held - 1 ≤ L
      omega

/-- C1: under any concurrency limit `L ≥ 2`, in every state reachable
from a fresh manager the number of occupied buffer slots equals the
number of live (running or retry-waiting) chains — each admitted chain
holds exactly one slot from `reserveOne` until its single deferred
`releaseOne` at the end of its whole retry chain — and that number
never exceeds `L`. -/
theorem concurrency_never_exceeds_limit (L : Nat) (hL : 2 ≤ L) (s : Sys)
    (hr : Reachable L s) :
    s.held = liveCount s.chains ∧ liveCount s.chains ≤ L := by
  clear hL
  induction hr with
  | refl => simp [Sys.init, liveCount]
  | tail hsteps hstep ih =>
    obtain ⟨ih1, ih2⟩ := ih
    obtain ⟨g1, g2⟩ := step_preserves_inv hstep ih1 (by omega)
    exact ⟨g1, by omega⟩

/-- Witness for C1: limit 2, after admitting one chain. -/
theorem concurrency_never_exceeds_limit_holds :
    liveCount (Sys.mk [Phase.running] 1).chains ≤ 2 :=
  (concurrency_never_exceeds_limit 2 (by decide) ⟨[Phase.running], 1⟩
    (Relation.ReflTransGen.single (Step.reserve Sys.init (by decide)))).2

/-- C7: when the context is already cancelled at the time of `Run`,
the call returns the cancellation cause, reserves no slot and spawns
no chain (the state is untouched); otherwise `Run` returns `nil`, and
admission is exactly one `reserve` transition of the gate — one reserved
slot, one spawned chain. -/
theorem run_on_cancelled_context (L : Nat) (s : Sys) :
    (runDispatch true s).1 = s ∧
      (runDispatch true s).2 = some Err.cancelled ∧
      (runDispatch false s).2 = none ∧
      (s.held < L → Step L s (runDispatch false s).1) := by
  refine ⟨rfl, rfl, rfl, fun h => ?_⟩
  exact Step.reserve s h

/-- Witness for C7 on a fresh manager with limit 2. -/
theorem run_on_cancelled_context_holds :
    (runDispatch true Sys.init).1 = Sys.init ∧
      Step 2 Sys.init (runDispatch false Sys.init).1 :=
  ⟨(run_on_cancelled_context 2 Sys.init).1,
    (run_on_cancelled_context 2 Sys.init).2.2.2 (by decide)⟩

end Conman
